import Mathlib

/-
  Verification of the Azure test report processor
  (src/azure_test_report_processor.py).

  The Python source is shallowly embedded below.  Strings are modelled as
  lists of characters.  Each definition mirrors one Python function or one
  block of the processing pipeline; external Azure collaborators (storage,
  search service, upload transport) are outside the embedding, which covers
  the pure extraction and document-shaping logic.
-/

set_option maxRecDepth 10000
set_option maxHeartbeats 2000000

abbrev Str := List Char

/-- Characters stripped by the Python str.strip method (ASCII whitespace). -/
def pyIsSpace (c : Char) : Bool :=
  c = ' ' || c = '\t' || c = '\n' || c = '\r' || c = '\x0b' || c = '\x0c'

/-- Model of Python str.strip with no arguments: drop whitespace at both ends. -/
def pyStrip (s : Str) : Str :=
  ((s.dropWhile pyIsSpace).reverse.dropWhile pyIsSpace).reverse

/-- Does the second list start with the first one? -/
def startsWithSeq : Str → Str → Bool
  | [], _ => true
  | _ :: _, [] => false
  | p :: ps, c :: cs => p = c && startsWithSeq ps cs

/-- Does the second list contain the first one as a contiguous run? -/
def containsSeq (pat : Str) : Str → Bool
  | [] => pat.isEmpty
  | c :: rest => startsWithSeq pat (c :: rest) || containsSeq pat rest

/-- The literal eight characters matched by the regular expression
    alternative for the reporter artifact in clean_version_string:
    the word marker followed by a backslash and the letter n. -/
def markerSeq : Str := ['m', 'a', 'r', 'k', 'e', 'r', '\\', 'n']

/-- One left-to-right pass of re.sub removing every occurrence of the
    marker sequence and every single or double quote character, scanning
    resumes after each match and never rescans the output (fuel-indexed;
    the wrapper supplies fuel equal to the input length, which suffices
    because every step consumes at least one character). -/
def removeMQFuel : Nat → Str → Str
  | 0, s => s
  | _ + 1, [] => []
  | f + 1, c :: rest =>
    if startsWithSeq markerSeq (c :: rest) then removeMQFuel f (rest.drop 7)
    else if c = '"' || c = '\'' then removeMQFuel f rest
    else c :: removeMQFuel f rest

/-- The substitution pass of clean_version_string. -/
def removeMarkersAndQuotes (s : Str) : Str := removeMQFuel s.length s

/-- The text after the first colon of the list, or none when no colon occurs.
    Models the colon test together with str.split on the first colon. -/
def afterFirstColon : Str → Option Str
  | [] => none
  | c :: rest => if c = ':' then some rest else afterFirstColon rest

/-- Embedding of clean_version_string: empty input maps to empty output,
    otherwise remove marker sequences and quotes, keep the text after the
    first colon when one occurs (stripping it), and strip the result. -/
def clean_version_string (s : Str) : Str :=
  if s = [] then []
  else
    let t := removeMarkersAndQuotes s
    match afterFirstColon t with
    | some r => pyStrip (pyStrip r)
    | none => pyStrip t

/-- Concrete input showing clean_version_string is not idempotent. -/
def c2Bad : Str := "a:b:c".data

/-- Concrete input on which the version cleaner is stable. -/
def c2Good : Str := "pytest: 8.3.3".data

/- ------------------------------------------------------------------ -/
/- JSON values and the json.loads model                                -/
/- ------------------------------------------------------------------ -/

/-- JSON values as produced by json.loads: null, booleans, numbers,
    strings, arrays and objects.  Objects keep their bindings in textual
    order; lookups take the last binding of a key, matching Python dict
    construction.  Numeric literals are modelled as integers; the report
    payloads relevant here carry no fractional numbers, and the parser
    rejects them rather than approximate. -/
inductive JVal where
  | jnull : JVal
  | jbool : Bool → JVal
  | jnum : Int → JVal
  | jstr : Str → JVal
  | jarr : List JVal → JVal
  | jobj : List (Str × JVal) → JVal

/-- Python dict lookup on a parsed object: the last binding of a key wins. -/
def lookupLast (fs : List (Str × JVal)) (k : Str) : Option JVal :=
  ((fs.filter (fun p => p.1 == k)).getLast?).map (fun p => p.2)

/-- Python dict.get with a default. -/
def getD (fs : List (Str × JVal)) (k : Str) (d : JVal) : JVal :=
  (lookupLast fs k).getD d

/-- JSON whitespace accepted between tokens. -/
def jsonWs (c : Char) : Bool := c = ' ' || c = '\t' || c = '\n' || c = '\r'

def skipWs (s : Str) : Str := s.dropWhile jsonWs

def hexVal (c : Char) : Option Nat :=
  if '0' ≤ c ∧ c ≤ '9' then some (c.toNat - 48)
  else if 'a' ≤ c ∧ c ≤ 'f' then some (c.toNat - 87)
  else if 'A' ≤ c ∧ c ≤ 'F' then some (c.toNat - 55)
  else none

/-- Body of a JSON string literal, after the opening quote: returns the
    decoded characters and the rest of the input after the closing quote. -/
def parseStrBody : Nat → Str → Option (Str × Str)
  | 0, _ => none
  | _ + 1, [] => none
  | f + 1, c :: rest =>
    if c = '"' then some ([], rest)
    else if c = '\\' then
      match rest with
      | [] => none
      | e :: r2 =>
        if e = '"' then (parseStrBody f r2).map (fun pr => ('"' :: pr.1, pr.2))
        else if e = '\\' then (parseStrBody f r2).map (fun pr => ('\\' :: pr.1, pr.2))
        else if e = '/' then (parseStrBody f r2).map (fun pr => ('/' :: pr.1, pr.2))
        else if e = 'n' then (parseStrBody f r2).map (fun pr => ('\n' :: pr.1, pr.2))
        else if e = 't' then (parseStrBody f r2).map (fun pr => ('\t' :: pr.1, pr.2))
        else if e = 'r' then (parseStrBody f r2).map (fun pr => ('\r' :: pr.1, pr.2))
        else if e = 'b' then (parseStrBody f r2).map (fun pr => ('\x08' :: pr.1, pr.2))
        else if e = 'f' then (parseStrBody f r2).map (fun pr => ('\x0c' :: pr.1, pr.2))
        else if e = 'u' then
          match r2 with
          | h1 :: h2 :: h3 :: h4 :: r3 =>
            match hexVal h1, hexVal h2, hexVal h3, hexVal h4 with
            | some a, some b, some c2, some d =>
              (parseStrBody f r3).map
                (fun pr => (Char.ofNat (((a * 16 + b) * 16 + c2) * 16 + d) :: pr.1, pr.2))
            | _, _, _, _ => none
          | _ => none
        else none
    else if c.toNat < 32 then none
    else (parseStrBody f rest).map (fun pr => (c :: pr.1, pr.2))

def digitsToNat (ds : Str) : Nat := ds.foldl (fun a c => a * 10 + (c.toNat - 48)) 0

/-- Integer literals; a following dot or exponent marks a float, which
    this model rejects rather than represent approximately. -/
def parseNum (s : Str) : Option (JVal × Str) :=
  match s with
  | '-' :: rest =>
    let ds := rest.takeWhile Char.isDigit
    let r := rest.dropWhile Char.isDigit
    if ds.isEmpty then none
    else if (match r with | c :: _ => c = '.' || c = 'e' || c = 'E' | [] => false) then none
    else some (.jnum (-(digitsToNat ds : Int)), r)
  | _ =>
    let ds := s.takeWhile Char.isDigit
    let r := s.dropWhile Char.isDigit
    if ds.isEmpty then none
    else if (match r with | c :: _ => c = '.' || c = 'e' || c = 'E' | [] => false) then none
    else some (.jnum (digitsToNat ds : Int), r)

mutual

/-- One JSON value, leading whitespace allowed; fuel-indexed, the wrapper
    supplies fuel bounding the nesting depth by the input length. -/
def parseVal : Nat → Str → Option (JVal × Str)
  | 0, _ => none
  | f + 1, s0 =>
    match skipWs s0 with
    | [] => none
    | '\x7b' :: rest =>
      match skipWs rest with
      | '\x7d' :: r2 => some (.jobj [], r2)
      | r1 => (parseObjItems f r1).map (fun pr => (.jobj pr.1, pr.2))
    | '[' :: rest =>
      match skipWs rest with
      | ']' :: r2 => some (.jarr [], r2)
      | r1 => (parseArrItems f r1).map (fun pr => (.jarr pr.1, pr.2))
    | '"' :: rest => (parseStrBody (rest.length + 1) rest).map (fun pr => (.jstr pr.1, pr.2))
    | 't' :: rest =>
      if startsWithSeq ("rue".data) rest then some (.jbool true, rest.drop 3) else none
    | 'f' :: rest =>
      if startsWithSeq ("alse".data) rest then some (.jbool false, rest.drop 4) else none
    | 'n' :: rest =>
      if startsWithSeq ("ull".data) rest then some (.jnull, rest.drop 3) else none
    | c :: rest => parseNum (c :: rest)

/-- Comma-separated array items up to the closing bracket. -/
def parseArrItems : Nat → Str → Option (List JVal × Str)
  | 0, _ => none
  | f + 1, s =>
    match parseVal f s with
    | none => none
    | some (v, r) =>
      match skipWs r with
      | ',' :: r2 => (parseArrItems f r2).map (fun pr => (v :: pr.1, pr.2))
      | ']' :: r2 => some ([v], r2)
      | _ => none

/-- Comma-separated object members up to the closing brace; keys are
    JSON string literals. -/
def parseObjItems : Nat → Str → Option (List (Str × JVal) × Str)
  | 0, _ => none
  | f + 1, s =>
    match skipWs s with
    | '"' :: rest =>
      match parseStrBody (rest.length + 1) rest with
      | none => none
      | some (k, r1) =>
        match skipWs r1 with
        | ':' :: r2 =>
          match parseVal f r2 with
          | none => none
          | some (v, r3) =>
            match skipWs r3 with
            | ',' :: r4 => (parseObjItems f r4).map (fun pr => ((k, v) :: pr.1, pr.2))
            | '\x7d' :: r4 => some ([(k, v)], r4)
            | _ => none
        | _ => none
    | _ => none

end

/-- Model of json.loads: parse one value and require only whitespace after. -/
def json_loads (s : Str) : Option JVal :=
  match parseVal (s.length + 1) s with
  | some (v, rest) => if skipWs rest = [] then some v else none
  | none => none

/- ------------------------------------------------------------------ -/
/- clean_json_string                                                   -/
/- ------------------------------------------------------------------ -/

/-- Python str.strip applied with a quote argument: remove every leading
    and trailing double-quote character. -/
def stripQuoteEnds (s : Str) : Str :=
  ((s.dropWhile (fun c => c = '"')).reverse.dropWhile (fun c => c = '"')).reverse

/-- Python str.replace: leftmost matches, scanning resumes after each
    replacement (fuel-indexed, fuel equal to the input length suffices). -/
def replaceSeqFuel : Nat → Str → Str → Str → Str
  | 0, _, _, s => s
  | f + 1, pat, repl, s =>
    match s with
    | [] => []
    | c :: rest =>
      if startsWithSeq pat (c :: rest) && !pat.isEmpty then
        repl ++ replaceSeqFuel f pat repl ((c :: rest).drop pat.length)
      else c :: replaceSeqFuel f pat repl rest

def replaceSeq (pat repl s : Str) : Str := replaceSeqFuel s.length pat repl s

/-- The character class of the bare-key regular expression. -/
def isIdentChar (c : Char) : Bool := c.isAlpha || c.isDigit || c = '_' || c = '-'

/-- First substitution of clean_json_string: after an opening brace or a
    comma (whitespace allowed), an identifier-like run followed by a colon
    is wrapped in double quotes; whitespace between the identifier and
    the colon is dropped, as in the replacement template. -/
def sub1Fuel : Nat → Str → Str
  | 0, s => s
  | _ + 1, [] => []
  | f + 1, c :: rest =>
    if c = '\x7b' || c = ',' then
      let ws := rest.takeWhile pyIsSpace
      let r1 := rest.dropWhile pyIsSpace
      let ident := r1.takeWhile isIdentChar
      let r2 := r1.dropWhile isIdentChar
      match r2.dropWhile pyIsSpace with
      | ':' :: r4 =>
        if ident.isEmpty then c :: sub1Fuel f rest
        else c :: (ws ++ '"' :: (ident ++ '"' :: ':' :: sub1Fuel f r4))
      | _ => c :: sub1Fuel f rest
    else c :: sub1Fuel f rest

def sub1 (s : Str) : Str := sub1Fuel s.length s

/-- Second substitution of clean_json_string: a colon, optional
    whitespace, a double-quoted run and a closing delimiter are rewritten
    without the whitespace after the colon. -/
def sub2Fuel : Nat → Str → Str
  | 0, s => s
  | _ + 1, [] => []
  | f + 1, c :: rest =>
    if c = ':' then
      match rest.dropWhile pyIsSpace with
      | '"' :: r2 =>
        let content := r2.takeWhile (fun x => x != '"')
        match r2.dropWhile (fun x => x != '"') with
        | '"' :: d :: r5 =>
          if d = '\x7d' || d = ',' then
            ':' :: '"' :: (content ++ '"' :: d :: sub2Fuel f r5)
          else c :: sub2Fuel f rest
        | _ => c :: sub2Fuel f rest
      | _ => c :: sub2Fuel f rest
    else c :: sub2Fuel f rest

def sub2 (s : Str) : Str := sub2Fuel s.length s

/-- Embedding of clean_json_string: strip whitespace and surrounding
    double quotes, unescape escaped double quotes, turn escaped newline
    and tab sequences into spaces, quote bare object keys, normalize
    spacing around quoted values, then replace single quotes with double
    quotes.  The try block of the source never raises on these total
    operations. -/
def clean_json_string (s : Str) : Str :=
  let s1 := stripQuoteEnds (pyStrip s)
  let s2 := replaceSeq ['\\', '"'] ['"'] s1
  let s3 := replaceSeq ['\\', 'n'] [' '] s2
  let s4 := replaceSeq ['\\', 't'] [' '] s3
  replaceSeq ['\''] ['"'] (sub2 (sub1 s4))

/- ------------------------------------------------------------------ -/
/- Python str() on parsed JSON values                                  -/
/- ------------------------------------------------------------------ -/

def joinSep : List Str → Str
  | [] => []
  | [x] => x
  | x :: y :: ys => x ++ ',' :: ' ' :: joinSep (y :: ys)

def pyReprEsc (c : Char) : Str :=
  if c = '\\' then ['\\', '\\']
  else if c = '\'' then ['\\', '\'']
  else if c = '\n' then ['\\', 'n']
  else if c = '\r' then ['\\', 'r']
  else if c = '\t' then ['\\', 't']
  else [c]

/-- Python repr of a string, modelled with single-quote delimiters. -/
def pyReprStr (s : Str) : Str :=
  '\'' :: ((s.map pyReprEsc).flatten ++ ['\''])

/-- Python repr of a parsed JSON value (containers print their elements
    with repr, as the CPython list and dict printers do). -/
def pyRepr : JVal → Str
  | .jnull => "None".data
  | .jbool true => "True".data
  | .jbool false => "False".data
  | .jnum n => (toString n).data
  | .jstr s => pyReprStr s
  | .jarr xs => '[' :: (joinSep (xs.attach.map (fun x => pyRepr x.1)) ++ [']'])
  | .jobj fs =>
    '\x7b' :: (joinSep (fs.attach.map (fun p => pyReprStr p.1.1 ++ ':' :: ' ' :: pyRepr p.1.2))
      ++ ['\x7d'])
termination_by v => sizeOf v
decreasing_by
  · have h := List.sizeOf_lt_of_mem x.2
    simp only [JVal.jarr.sizeOf_spec]
    omega
  · rcases p with ⟨⟨a, b⟩, hmem⟩
    have h := List.sizeOf_lt_of_mem hmem
    simp only [JVal.jobj.sizeOf_spec, Prod.mk.sizeOf_spec] at h ⊢
    omega

/-- Python str: a string prints itself, every other value prints its repr. -/
def pyStr : JVal → Str
  | .jstr s => s
  | v => pyRepr v

/- ------------------------------------------------------------------ -/
/- Key strings used by the extractor                                   -/
/- ------------------------------------------------------------------ -/

def keyPackages : Str := "Packages".data
def keyPlugins : Str := "Plugins".data
def keyPython : Str := "Python".data
def keyPlatform : Str := "Platform".data
def keyPLATFORM : Str := "PLATFORM".data
def keyBaseURL : Str := "Base URL".data
def kwPytest : Str := "pytest:".data
def kwPluggy : Str := "pluggy:".data
def kwBaseUrl : Str := "base-url:".data
def kwPlaywright : Str := "playwright:".data
def kwAsyncio : Str := "asyncio:".data
def kwHtml : Str := "html:".data
def kwMetadata : Str := "metadata:".data
def jkEnvironment : Str := "environment".data
def jkPlugins : Str := "plugins".data
def jkPytest : Str := "pytest".data
def jkPluggy : Str := "pluggy".data
def jkBaseUrlDash : Str := "base-url".data
def jkPlaywright : Str := "playwright".data
def jkAsyncio : Str := "asyncio".data
def jkHtml : Str := "html".data
def jkMetadata : Str := "metadata".data
def logSentinel : Str := "No log output captured.".data
def defaultTitle : Str := "report.html".data
def passedStr : Str := "passed".data
def resultSortStr : Str := "result".data
def attachScreenshot : Str := "Screenshot".data
def attachImage : Str := "image".data

/- ------------------------------------------------------------------ -/
/- extract_environment_from_html                                       -/
/- ------------------------------------------------------------------ -/

/-- One table cell: its text content and the text of each nested li item. -/
structure EnvCell where
  text : Str
  items : List Str
deriving DecidableEq

/-- One tr of the environment table, as the list of its td cells. -/
structure EnvRow where
  cells : List EnvCell
deriving DecidableEq

structure HtmlPackages where
  pytest : Str
  pluggy : Str
deriving DecidableEq

structure HtmlPlugins where
  base_url : Str
  playwright : Str
  asyncio : Str
  html : Str
  metadata : Str
deriving DecidableEq

/-- The dictionary built by extract_environment_from_html, with its keys
    Python, Platform, Packages, plugins, PLATFORM and Base URL. -/
structure HtmlEnv where
  Python : Str
  Platform : Str
  Packages : HtmlPackages
  plugins : HtmlPlugins
  PLATFORM : Str
  BaseURL : Str
deriving DecidableEq

def htmlEnvDefault : HtmlEnv :=
  { Python := [], Platform := [], Packages := { pytest := [], pluggy := [] },
    plugins := { base_url := [], playwright := [], asyncio := [], html := [], metadata := [] },
    PLATFORM := [], BaseURL := [] }

/-- The loop body over li items of the Packages cell; the elif chain
    assigns the cleaned text, a later matching item overwrites. -/
def packagesLi (pk : HtmlPackages) (li : Str) : HtmlPackages :=
  let text := pyStrip li
  if containsSeq kwPytest text then { pk with pytest := clean_version_string text }
  else if containsSeq kwPluggy text then { pk with pluggy := clean_version_string text }
  else pk

/-- The loop body over li items of the Plugins cell. -/
def pluginsLi (pl : HtmlPlugins) (li : Str) : HtmlPlugins :=
  let text := pyStrip li
  if containsSeq kwBaseUrl text then { pl with base_url := clean_version_string text }
  else if containsSeq kwPlaywright text then { pl with playwright := clean_version_string text }
  else if containsSeq kwAsyncio text then { pl with asyncio := clean_version_string text }
  else if containsSeq kwHtml text then { pl with html := clean_version_string text }
  else if containsSeq kwMetadata text then { pl with metadata := clean_version_string text }
  else pl

/-- One row of the environment table: rows with fewer than two cells are
    skipped; the first cell text selects the field, the second provides
    the value. -/
def processEnvRow (env : HtmlEnv) (row : EnvRow) : HtmlEnv :=
  match row.cells with
  | c0 :: c1 :: _ =>
    let key := pyStrip c0.text
    if key = keyPackages then { env with Packages := c1.items.foldl packagesLi env.Packages }
    else if key = keyPlugins then { env with plugins := c1.items.foldl pluginsLi env.plugins }
    else if key = keyPython then { env with Python := pyStrip c1.text }
    else if key = keyPlatform then { env with Platform := pyStrip c1.text }
    else if key = keyPLATFORM then { env with PLATFORM := pyStrip c1.text }
    else if key = keyBaseURL then { env with BaseURL := pyStrip c1.text }
    else env
  | _ => env

/-- Embedding of extract_environment_from_html: an absent table yields the
    all-empty record, otherwise the rows are folded over the default. -/
def extract_environment_from_html (table : Option (List EnvRow)) : HtmlEnv :=
  match table with
  | none => htmlEnvDefault
  | some rows => rows.foldl processEnvRow htmlEnvDefault

/- ------------------------------------------------------------------ -/
/- The environment record of extract_test_data                         -/
/- ------------------------------------------------------------------ -/

structure EnvPackages where
  pytest : Str
  pluggy : Str
deriving DecidableEq

structure EnvPlugins where
  base_url : Str
  playwright : Str
  asyncio : Str
  html : Str
  metadata : Str
deriving DecidableEq

/-- The environment dictionary of extract_test_data.  The four scalar
    entries hold whatever value the parsed JSON supplied (the source reads
    them with dict.get and no conversion), so they are modelled as JSON
    values; package and plugin entries always pass through str and
    clean_version_string and are plain strings. -/
structure Environment where
  python : JVal
  platform : JVal
  packages : EnvPackages
  plugins : EnvPlugins
  platform_type : JVal
  base_url : JVal

def environmentDefault : Environment :=
  { python := .jstr [], platform := .jstr [], packages := { pytest := [], pluggy := [] },
    plugins := { base_url := [], playwright := [], asyncio := [], html := [], metadata := [] },
    platform_type := .jstr [], base_url := .jstr [] }

/-- The plugins update of the JSON path.  A plugins value that is not an
    object raises AttributeError at the first .get call, which the generic
    except handler swallows, leaving the record as already updated. -/
def pluginsStepJson (efs : List (Str × JVal)) (env : Environment) : Environment :=
  match lookupLast efs jkPlugins with
  | some (.jobj plfs) =>
    { env with plugins :=
      { base_url := clean_version_string (pyStr (getD plfs jkBaseUrlDash (.jstr []))),
        playwright := clean_version_string (pyStr (getD plfs jkPlaywright (.jstr []))),
        asyncio := clean_version_string (pyStr (getD plfs jkAsyncio (.jstr []))),
        html := clean_version_string (pyStr (getD plfs jkHtml (.jstr []))),
        metadata := clean_version_string (pyStr (getD plfs jkMetadata (.jstr []))) } }
  | some _ => env
  | none => env

/-- The JSON-path environment update of extract_test_data, applied to the
    parsed blob.  Non-object shapes raise inside the try block and are
    swallowed by the generic except handler, leaving whatever updates had
    already been applied; an absent environment key skips the block. -/
def applyJsonEnv (j : JVal) (env : Environment) : Environment :=
  match j with
  | .jobj fs =>
    match lookupLast fs jkEnvironment with
    | some (.jobj efs) =>
      let env1 := { env with
        python := getD efs keyPython (.jstr []),
        platform := getD efs keyPlatform (.jstr []),
        platform_type := getD efs keyPLATFORM (.jstr []),
        base_url := getD efs keyBaseURL (.jstr []) }
      match lookupLast efs keyPackages with
      | some (.jobj pfs) =>
        pluginsStepJson efs
          { env1 with packages :=
            { pytest := clean_version_string (pyStr (getD pfs jkPytest (.jstr []))),
              pluggy := clean_version_string (pyStr (getD pfs jkPluggy (.jstr []))) } }
      | some _ => env1
      | none => pluginsStepJson efs env1
    | some _ => env
    | none => env
  | _ => env

/-- The HTML-fallback environment update of extract_test_data: scalar
    fields come from the scraped dictionary, package and plugin fields are
    cleaned a second time (str on a string is the identity). -/
def applyHtmlEnv (h : HtmlEnv) (env : Environment) : Environment :=
  { env with
    python := .jstr h.Python,
    platform := .jstr h.Platform,
    platform_type := .jstr h.PLATFORM,
    base_url := .jstr h.BaseURL,
    packages := { pytest := clean_version_string h.Packages.pytest,
                  pluggy := clean_version_string h.Packages.pluggy },
    plugins := { base_url := clean_version_string h.plugins.base_url,
                 playwright := clean_version_string h.plugins.playwright,
                 asyncio := clean_version_string h.plugins.asyncio,
                 html := clean_version_string h.plugins.html,
                 metadata := clean_version_string h.plugins.metadata } }

/- ------------------------------------------------------------------ -/
/- The document model                                                  -/
/- ------------------------------------------------------------------ -/

/-- The div with id data-container; its data-jsonblob attribute may be
    absent. -/
structure DataContainer where
  jsonblob : Option Str
deriving DecidableEq

structure ImgModel where
  src : Option Str
deriving DecidableEq

structure MediaModel where
  img : Option ImgModel
deriving DecidableEq

structure ExtrasRow where
  media : Option MediaModel
deriving DecidableEq

/-- The tr with class collapsible inside one tbody: each cell is the text
    of the td with the given class when that td is found. -/
structure ResultRow where
  resultCell : Option Str
  testIdCell : Option Str
  durationCell : Option Str
deriving DecidableEq

/-- One tbody with class results-table-row. -/
structure TBodyModel where
  row : Option ResultRow
  logDiv : Option Str
  extrasRow : Option ExtrasRow
deriving DecidableEq

/-- The parsed HTML report document, at the level of the elements the
    extractor queries. -/
structure Doc where
  dataContainer : Option DataContainer
  envTable : Option (List EnvRow)
  resultsTable : Option (List TBodyModel)
  titleH1 : Option Str

/-- The data-jsonblob attribute when the container div exists and carries
    it (models the conjunction guarding the JSON path). -/
def blobOf (doc : Doc) : Option Str :=
  match doc.dataContainer with
  | some dc => dc.jsonblob
  | none => none

/-- The environment part of extract_test_data: the JSON path runs when the
    container and attribute exist and the cleaned blob parses; a parse
    failure falls back to the HTML table; an absent container leaves the
    default record. -/
def extractEnv (doc : Doc) : Environment :=
  match blobOf doc with
  | some blob =>
    match json_loads (clean_json_string blob) with
    | some j => applyJsonEnv j environmentDefault
    | none => applyHtmlEnv (extract_environment_from_html doc.envTable) environmentDefault
  | none => environmentDefault

/- ------------------------------------------------------------------ -/
/- Test-case extraction                                                -/
/- ------------------------------------------------------------------ -/

structure Attachment where
  name : Str
  format_type : Str
  content : Str
deriving DecidableEq, Inhabited

/-- One per-test record of the tests dictionary (the serialized markup
    row list of the source is raw re-serialization of the same cells and
    is outside this text-level document model). -/
structure TestRec where
  extras : List Attachment
  result : Str
  testId : Str
  duration : Str
  log : Str
deriving DecidableEq, Inhabited

/-- The extras of one tbody: a screenshot attachment when the extras row,
    media div, img and a non-empty src attribute are all present. -/
def extrasOf (tb : TBodyModel) : List Attachment :=
  match tb.extrasRow with
  | some er =>
    match er.media with
    | some m =>
      match m.img with
      | some img =>
        match img.src with
        | some s =>
          if s.isEmpty then []
          else [{ name := attachScreenshot, format_type := attachImage, content := s }]
        | none => []
      | none => []
    | none => []
  | none => []

/-- The per-tbody extraction: the record and its key, or none when the
    collapsible row or any of the three cells is missing. -/
def rowEntry (tb : TBodyModel) : Option (Str × TestRec) :=
  match tb.row with
  | none => none
  | some r =>
    match r.resultCell, r.testIdCell, r.durationCell with
    | some rc, some tic, some dc =>
      let tid := pyStrip tic
      some (tid,
        { extras := extrasOf tb,
          result := pyStrip rc,
          testId := tid,
          duration := pyStrip dc,
          log := match tb.logDiv with | some t => pyStrip t | none => logSentinel })
    | _, _, _ => none

/-- Does the tbody carry a collapsible row with all three cells? -/
def rowComplete (tb : TBodyModel) : Bool :=
  match tb.row with
  | some r => r.resultCell.isSome && r.testIdCell.isSome && r.durationCell.isSome
  | none => false

/-- Python dict assignment: replace the value in place when the key
    exists, append otherwise. -/
def dictUpsert (d : List (Str × List TestRec)) (k : Str) (v : List TestRec) :
    List (Str × List TestRec) :=
  if d.any (fun p => p.1 == k) then
    d.map (fun p => if p.1 == k then (p.1, v) else p)
  else d ++ [(k, v)]

def insertTest (d : List (Str × List TestRec)) (tb : TBodyModel) : List (Str × List TestRec) :=
  match rowEntry tb with
  | some (k, v) => dictUpsert d k [v]
  | none => d

/-- The tests dictionary of extract_test_data: one singleton list per
    test identifier, keyed by the stripped identifier text. -/
def extractTests (tbs : List TBodyModel) : List (Str × List TestRec) :=
  tbs.foldl insertTest []

/-- Python dict lookup on the tests dictionary. -/
def lookupTests (d : List (Str × List TestRec)) (k : Str) : Option (List TestRec) :=
  (d.find? (fun p => p.1 == k)).map (fun p => p.2)

/-- The qualifying entries of the tbody list in document order, filtered
    to one key: the dict construction retains the last of them. -/
def lastQualRecord (tbs : List TBodyModel) (k : Str) : Option TestRec :=
  (((tbs.filterMap rowEntry).filter (fun p => p.1 == k)).getLast?).map (fun p => p.2)

/- ------------------------------------------------------------------ -/
/- extract_test_data and index_test_results                            -/
/- ------------------------------------------------------------------ -/

/-- The fixed metadata configuration consumed by the processor. -/
structure MetadataConfig where
  processor_version : Str
  current_user : Str
  processing_time : Str

structure ReportMetadata where
  processor_version : Str
  processed_by : Str
  processed_at : Str
deriving DecidableEq, Inhabited

/-- The dictionary returned by extract_test_data. -/
structure TestData where
  environment : Environment
  tests : List (Str × List TestRec)
  renderCollapsed : List Str
  initialSort : Str
  title : Str
  metadata : ReportMetadata

/-- Embedding of the pure part of extract_test_data, applied to an
    already-parsed document (download and markup parsing happen before
    this logic; their failures are modelled at the execute level). -/
def extract_test_data (cfg : MetadataConfig) (doc : Doc) : TestData :=
  { environment := extractEnv doc,
    tests := match doc.resultsTable with | some tbs => extractTests tbs | none => [],
    renderCollapsed := [passedStr],
    initialSort := resultSortStr,
    title := match doc.titleH1 with | some t => pyStrip t | none => defaultTitle,
    metadata := { processor_version := cfg.processor_version,
                  processed_by := cfg.current_user,
                  processed_at := cfg.processing_time } }

structure DocEnvPackages where
  pytest : Str
  pluggy : Str
deriving DecidableEq, Inhabited

structure DocEnvPlugins where
  base_url : Str
  playwright : Str
  asyncio : Str
  html : Str
  metadata : Str
deriving DecidableEq, Inhabited

/-- The environment dictionary embedded in each index document: scalars
    pass through str, packages and plugins through clean_version_string. -/
structure DocEnv where
  python : Str
  platform : Str
  packages : DocEnvPackages
  plugins : DocEnvPlugins
  platform_type : Str
  base_url : Str
deriving DecidableEq, Inhabited

/-- One document of the upload batch. -/
structure IndexDoc where
  id : Str
  testId : Str
  result : Str
  duration : Str
  log : Str
  timestamp : Str
  environment : DocEnv
  metadata : ReportMetadata
  title : Str
deriving DecidableEq, Inhabited

/-- strftime of the parsed processing time: on the canonical
    YYYY-MM-DD HH:MM:SS configuration value this replaces the space with
    the letter T and appends Z. -/
def formatTimestamp (s : Str) : Str :=
  (s.map (fun c => if c = ' ' then 'T' else c)) ++ ['Z']

/-- The per-document environment construction of index_test_results
    (str applied to a string is the identity on package and plugin
    entries, which are strings by construction). -/
def normalizeEnv (e : Environment) : DocEnv :=
  { python := pyStr e.python,
    platform := pyStr e.platform,
    packages := { pytest := clean_version_string e.packages.pytest,
                  pluggy := clean_version_string e.packages.pluggy },
    plugins := { base_url := clean_version_string e.plugins.base_url,
                 playwright := clean_version_string e.plugins.playwright,
                 asyncio := clean_version_string e.plugins.asyncio,
                 html := clean_version_string e.plugins.html,
                 metadata := clean_version_string e.plugins.metadata },
    platform_type := pyStr e.platform_type,
    base_url := pyStr e.base_url }

def mkIndexDoc (cfg : MetadataConfig) (td : TestData) (docId : Str) (t : TestRec) : IndexDoc :=
  { id := docId,
    testId := t.testId,
    result := t.result,
    duration := t.duration,
    log := t.log,
    timestamp := formatTimestamp cfg.processing_time,
    environment := normalizeEnv td.environment,
    metadata := { processor_version := cfg.processor_version,
                  processed_by := cfg.current_user,
                  processed_at := formatTimestamp cfg.processing_time },
    title := td.title }

/-- The test records in iteration order of the tests dictionary. -/
def allTestRecs (td : TestData) : List TestRec :=
  td.tests.foldr (fun p acc => p.2 ++ acc) []

/-- The document batch with identifiers drawn from the supply in order
    (uuid4 generation is modelled by the supply; distinctness is the
    negligible-collision assumption). -/
def numberWith (cfg : MetadataConfig) (td : TestData) (ids : Nat → Str) :
    Nat → List TestRec → List IndexDoc
  | _, [] => []
  | i, t :: ts => mkIndexDoc cfg td (ids i) t :: numberWith cfg td ids (i + 1) ts

/-- Embedding of index_test_results: one document per record of the tests
    dictionary, in iteration order. -/
def index_test_results (ids : Nat → Str) (cfg : MetadataConfig) (td : TestData) :
    List IndexDoc :=
  numberWith cfg td ids 0 (allTestRecs td)

/-- The execute flow for one report, at the core boundary: a parse outcome
    either aborts before any document is built, or the whole batch is built
    from the parsed report and handed to the uploader. -/
def execute (ids : Nat → Str) (cfg : MetadataConfig) (parsed : Except Str TestData) :
    Except Str (List IndexDoc) :=
  match parsed with
  | .error e => .error e
  | .ok td => .ok (index_test_results ids cfg td)

/- ------------------------------------------------------------------ -/
/- Concrete inputs used by witnesses and counterexamples               -/
/- ------------------------------------------------------------------ -/

def sqChar : Char := '\''

/-- The metadata configuration of the source, as string data. -/
def cfgSample : MetadataConfig :=
  { processor_version := "2.0.3".data,
    current_user := "sumi9876".data,
    processing_time := "2025-07-30 21:01:11".data }

/-- An injective identifier supply used by witnesses. -/
def idsRep : Nat → Str := fun n => List.replicate n 'a'

/-- The C9 scenario input, with unquoted and single-quoted pieces. -/
def c9Input : Str :=
  "\x7bpytest:\"8.3.3\", pluggy:".data ++ sqChar :: "1.5.0".data ++ [sqChar, '\x7d']

def v833 : Str := "8.3.3".data
def v150 : Str := "1.5.0".data
def v3119 : Str := "3.11.9".data

/-- A document with no data container and an environment table giving a
    Python version: the source leaves the default record here. -/
def c1Doc : Doc :=
  { dataContainer := none,
    envTable := some [{ cells := [{ text := keyPython, items := [] },
                                  { text := v3119, items := [] }] }],
    resultsTable := none,
    titleH1 := none }

/-- A blob whose environment carries a JSON null for Python. -/
def c3Blob : Str := "\x7b\"environment\": \x7b\"Python\": null\x7d\x7d".data

def c3Doc : Doc :=
  { dataContainer := some { jsonblob := some c3Blob },
    envTable := none, resultsTable := none, titleH1 := none }

/-- A document with no blob at all, for the C1 witness. -/
def c3PlainDoc : Doc :=
  { dataContainer := none, envTable := none, resultsTable := none, titleH1 := none }

/-- A blob whose environment maps Python to a JSON string, so the
    string-scalars condition holds non-vacuously. -/
def c3GoodBlob : Str := "\x7b\"environment\": \x7b\"Python\": \"3.11.9\"\x7d\x7d".data

def c3GoodDoc : Doc :=
  { dataContainer := some { jsonblob := some c3GoodBlob },
    envTable := none, resultsTable := none, titleH1 := none }

def resultPassed : Str := "Passed".data
def testIdSample : Str := "test_2.py::test_google_search".data
def durationSample : Str := "00:00:07".data

/-- A complete result row with no log element. -/
def tbNoLog : TBodyModel :=
  { row := some { resultCell := some resultPassed,
                  testIdCell := some testIdSample,
                  durationCell := some durationSample },
    logDiv := none, extrasRow := none }

def testIdOther : Str := "test_1.py::test_other".data
def logTextSample : Str := "  some log text  ".data

/-- A complete result row carrying a log element with padded text. -/
def tbWithLog : TBodyModel :=
  { row := some { resultCell := some resultPassed,
                  testIdCell := some testIdOther,
                  durationCell := some durationSample },
    logDiv := some logTextSample, extrasRow := none }

/-- A row whose duration cell is missing. -/
def tbIncomplete : TBodyModel :=
  { row := some { resultCell := some resultPassed,
                  testIdCell := some testIdSample,
                  durationCell := none },
    logDiv := none, extrasRow := none }

def resultFailed : Str := "Failed".data

/-- A second complete row with the same identifier as tbNoLog but a
    different result label. -/
def tbDupLater : TBodyModel :=
  { row := some { resultCell := some resultFailed,
                  testIdCell := some testIdSample,
                  durationCell := some durationSample },
    logDiv := none, extrasRow := none }

/-- A blob whose pytest version keeps two colons after one cleaning. -/
def c7Blob : Str :=
  "\x7b\"environment\": \x7b\"Packages\": \x7b\"pytest\": \"a:b:c\"\x7d\x7d\x7d".data

def c7Doc : Doc :=
  { dataContainer := some { jsonblob := some c7Blob },
    envTable := none,
    resultsTable := some [tbNoLog],
    titleH1 := none }

/-- A document exercising both the blob path and the results table for
    witnesses. -/
def c5Doc : Doc :=
  { dataContainer := none,
    envTable := none,
    resultsTable := some [tbWithLog, tbIncomplete, tbNoLog],
    titleH1 := none }

/- ------------------------------------------------------------------ -/
/- Predicates and derived inputs for the claims                        -/
/- ------------------------------------------------------------------ -/

/-- Is the JSON value a string? -/
def isJStr : JVal → Bool
  | .jstr _ => true
  | _ => false

/-- Is an optional scalar read from the blob a string or absent? -/
def scalarOk : Option JVal → Bool
  | none => true
  | some v => isJStr v

/-- Are the four scalar fields of the environment record strings?  The
    package and plugin fields are strings by construction. -/
def envStringsOk (e : Environment) : Bool :=
  isJStr e.python && isJStr e.platform && isJStr e.platform_type && isJStr e.base_url

/-- Do the four scalar entries of the parsed blob, where present, hold
    JSON strings? -/
def blobScalarsOk (j : JVal) : Bool :=
  match j with
  | .jobj fs =>
    match lookupLast fs jkEnvironment with
    | some (.jobj efs) =>
      scalarOk (lookupLast efs keyPython) && scalarOk (lookupLast efs keyPlatform) &&
      scalarOk (lookupLast efs keyPLATFORM) && scalarOk (lookupLast efs keyBaseURL)
    | _ => true
  | _ => true

def tdC5 : TestData := extract_test_data cfgSample c5Doc

def tdC7 : TestData := extract_test_data cfgSample c7Doc

/-- The first document built from the c5Doc report. -/
def c7HeadDoc : IndexDoc := (index_test_results idsRep cfgSample tdC5).headI

/-- The first document built from the c7Doc report. -/
def c7BatchHead : IndexDoc := (index_test_results idsRep cfgSample tdC7).headI

def c8Tbs : List TBodyModel := [tbNoLog, tbWithLog]

def c8Entry : Str × List TestRec := (extractTests c8Tbs).headI

def c8Rec : TestRec := c8Entry.2.headI

/- ------------------------------------------------------------------ -/
/- Support lemmas                                                      -/
/- ------------------------------------------------------------------ -/

theorem dropWhile_dropWhile (p : Char → Bool) (l : Str) :
    (l.dropWhile p).dropWhile p = l.dropWhile p := by
  induction l with
  | nil => rfl
  | cons c t ih =>
    by_cases h : p c
    · simp [List.dropWhile_cons, h, ih]
    · simp [List.dropWhile_cons, h]

theorem head_not_of_dropWhile (p : Char → Bool) (l : Str) :
    ∀ x, (l.dropWhile p).head? = some x → p x = false := by
  induction l with
  | nil => intro x hx; simp [List.dropWhile] at hx
  | cons c t ih =>
    intro x hx
    by_cases h : p c
    · rw [List.dropWhile_cons, if_pos h] at hx
      exact ih x hx
    · rw [List.dropWhile_cons, if_neg h] at hx
      simp at hx
      subst hx
      simpa using h

theorem getLast?_dropWhile (p : Char → Bool) (l : Str) (h : l.dropWhile p ≠ []) :
    (l.dropWhile p).getLast? = l.getLast? := by
  induction l with
  | nil => simp [List.dropWhile] at h
  | cons c t ih =>
    by_cases hp : p c
    · rw [List.dropWhile_cons, if_pos hp] at h ⊢
      cases t with
      | nil => simp [List.dropWhile] at h
      | cons b t2 =>
        rw [List.getLast?_cons_cons]
        exact ih h
    · rw [List.dropWhile_cons, if_neg hp]

theorem dropWhile_eq_self_of_head (p : Char → Bool) (l : Str)
    (h : ∀ x, l.head? = some x → p x = false) : l.dropWhile p = l := by
  cases l with
  | nil => rfl
  | cons c t => rw [List.dropWhile_cons, if_neg (by simp [h c rfl])]

theorem pyStrip_idem (s : Str) : pyStrip (pyStrip s) = pyStrip s := by
  have h1 : (pyStrip s).dropWhile pyIsSpace = pyStrip s := by
    apply dropWhile_eq_self_of_head
    intro x hx
    unfold pyStrip at hx
    rw [List.head?_reverse] at hx
    have hne : (s.dropWhile pyIsSpace).reverse.dropWhile pyIsSpace ≠ [] := by
      intro hnil; rw [hnil] at hx; simp at hx
    rw [getLast?_dropWhile _ _ hne, List.getLast?_reverse] at hx
    exact head_not_of_dropWhile pyIsSpace s x hx
  calc pyStrip (pyStrip s)
      = (((pyStrip s).dropWhile pyIsSpace).reverse.dropWhile pyIsSpace).reverse := rfl
    _ = ((pyStrip s).reverse.dropWhile pyIsSpace).reverse := by rw [h1]
    _ = ((((s.dropWhile pyIsSpace).reverse.dropWhile pyIsSpace).reverse).reverse.dropWhile
          pyIsSpace).reverse := rfl
    _ = (((s.dropWhile pyIsSpace).reverse.dropWhile pyIsSpace).dropWhile pyIsSpace).reverse := by
          rw [List.reverse_reverse]
    _ = ((s.dropWhile pyIsSpace).reverse.dropWhile pyIsSpace).reverse := by
          rw [dropWhile_dropWhile]
    _ = pyStrip s := rfl

theorem mem_pyStrip {s : Str} {c : Char} (h : c ∈ pyStrip s) : c ∈ s := by
  unfold pyStrip at h
  rw [List.mem_reverse] at h
  have h2 := (List.dropWhile_sublist pyIsSpace).subset h
  rw [List.mem_reverse] at h2
  exact (List.dropWhile_sublist pyIsSpace).subset h2

theorem removeMQFuel_no_quote :
    ∀ (f : Nat) (s : Str), s.length ≤ f →
      ∀ c ∈ removeMQFuel f s, ¬(c = '"' ∨ c = '\'') := by
  intro f
  induction f with
  | zero =>
    intro s hs
    have : s = [] := List.length_eq_zero.mp (Nat.le_zero.mp hs)
    subst this
    intro c hc; simp [removeMQFuel] at hc
  | succ f ih =>
    intro s hs
    cases s with
    | nil => intro c hc; simp [removeMQFuel] at hc
    | cons a rest =>
      simp only [List.length_cons, Nat.add_le_add_iff_right] at hs
      by_cases h1 : startsWithSeq markerSeq (a :: rest)
      · rw [show removeMQFuel (f + 1) (a :: rest) = removeMQFuel f (rest.drop 7) by
          simp [removeMQFuel, h1]]
        exact ih _ (by simp [List.length_drop]; omega)
      · by_cases h2 : a = '"' || a = '\''
        · rw [show removeMQFuel (f + 1) (a :: rest) = removeMQFuel f rest by
            simp [removeMQFuel, h1, h2]]
          exact ih _ hs
        · rw [show removeMQFuel (f + 1) (a :: rest) = a :: removeMQFuel f rest by
            simp [removeMQFuel, h1, h2]]
          intro c hc
          rcases List.mem_cons.mp hc with hca | hcr
          · subst hca; simpa using h2
          · exact ih _ hs c hcr

theorem removeMQFuel_eq_self :
    ∀ (f : Nat) (s : Str), s.length ≤ f →
      (∀ c ∈ s, ¬(c = '"' ∨ c = '\'')) →
      containsSeq markerSeq s = false →
      removeMQFuel f s = s := by
  intro f
  induction f with
  | zero => intro s _ _ _; rfl
  | succ f ih =>
    intro s hs hq hm
    cases s with
    | nil => rfl
    | cons a rest =>
      simp only [List.length_cons, Nat.add_le_add_iff_right] at hs
      simp only [containsSeq, Bool.or_eq_false_iff] at hm
      have h1 : startsWithSeq markerSeq (a :: rest) = false := hm.1
      have h2 : (a = '"' || a = '\'') = false := by
        have := hq a (List.mem_cons_self a rest)
        simp only [Bool.or_eq_false_iff, decide_eq_false_iff_not]
        exact ⟨fun hh => this (Or.inl hh), fun hh => this (Or.inr hh)⟩
      rw [show removeMQFuel (f + 1) (a :: rest) = a :: removeMQFuel f rest by
        simp [removeMQFuel, h1, h2]]
      rw [ih rest hs (fun c hc => hq c (List.mem_cons_of_mem a hc)) hm.2]

theorem removeMarkersAndQuotes_no_quote (s : Str) :
    ∀ c ∈ removeMarkersAndQuotes s, ¬(c = '"' ∨ c = '\'') :=
  removeMQFuel_no_quote s.length s le_rfl

theorem removeMarkersAndQuotes_eq_self (s : Str)
    (hq : ∀ c ∈ s, ¬(c = '"' ∨ c = '\''))
    (hm : containsSeq markerSeq s = false) :
    removeMarkersAndQuotes s = s :=
  removeMQFuel_eq_self s.length s le_rfl hq hm

theorem afterFirstColon_eq_none (l : Str) (h : ':' ∉ l) :
    afterFirstColon l = none := by
  induction l with
  | nil => rfl
  | cons c t ih =>
    rw [List.mem_cons, not_or] at h
    simp only [afterFirstColon, if_neg (Ne.symm h.1)]
    exact ih h.2

theorem mem_of_mem_afterFirstColon :
    ∀ (l r : Str), afterFirstColon l = some r → ∀ c ∈ r, c ∈ l := by
  intro l
  induction l with
  | nil => intro r hr; simp [afterFirstColon] at hr
  | cons a t ih =>
    intro r hr c hc
    by_cases ha : a = ':'
    · rw [afterFirstColon, if_pos ha] at hr
      cases hr
      exact List.mem_cons_of_mem a hc
    · rw [afterFirstColon, if_neg ha] at hr
      exact List.mem_cons_of_mem a (ih r hr c hc)

/- ------------------------------------------------------------------ -/
/- Claim C2                                                            -/
/- ------------------------------------------------------------------ -/

/-- C2 counterexample: the version cleaner is not idempotent on the string
    a:b:c, since the first pass keeps b:c and the second pass keeps c. -/
theorem clean_version_string_not_idempotent :
    clean_version_string (clean_version_string c2Bad) ≠ clean_version_string c2Bad := by
  decide

/-- C2 amended: the version cleaner is idempotent on every string whose
    cleaned value contains no colon and no occurrence of the literal marker
    sequence; re-cleaning re-splits at a remaining colon and re-removes
    marker sequences re-formed by quote removal, and only then differs. -/
theorem clean_version_string_idem (s : Str)
    (h1 : ':' ∉ clean_version_string s)
    (h2 : containsSeq markerSeq (clean_version_string s) = false) :
    clean_version_string (clean_version_string s) = clean_version_string s := by
  by_cases hs : s = []
  · subst hs; rfl
  have hq : ∀ c ∈ clean_version_string s, ¬(c = '"' ∨ c = '\'') := by
    intro c hc
    simp only [clean_version_string, if_neg hs] at hc
    cases hac : afterFirstColon (removeMarkersAndQuotes s) with
    | some r =>
      rw [hac] at hc
      exact removeMarkersAndQuotes_no_quote s c
        (mem_of_mem_afterFirstColon _ r hac c (mem_pyStrip (mem_pyStrip hc)))
    | none =>
      rw [hac] at hc
      exact removeMarkersAndQuotes_no_quote s c (mem_pyStrip hc)
  have hstrip : pyStrip (clean_version_string s) = clean_version_string s := by
    simp only [clean_version_string, if_neg hs]
    cases hac : afterFirstColon (removeMarkersAndQuotes s) with
    | some r => exact pyStrip_idem (pyStrip r)
    | none => exact pyStrip_idem (removeMarkersAndQuotes s)
  by_cases hy : clean_version_string s = []
  · rw [hy]; rfl
  · have hmq : removeMarkersAndQuotes (clean_version_string s) = clean_version_string s :=
      removeMarkersAndQuotes_eq_self _ hq h2
    have hc : afterFirstColon (clean_version_string s) = none :=
      afterFirstColon_eq_none _ h1
    conv_lhs => rw [clean_version_string]
    rw [if_neg hy]
    simp only [hmq, hc]
    exact hstrip

/-- C2 witness: the amended idempotence theorem applied to a concrete
    version token. -/
theorem clean_version_string_idem_witness :
    clean_version_string (clean_version_string c2Good) = clean_version_string c2Good :=
  clean_version_string_idem c2Good (by decide) (by decide)

/- ------------------------------------------------------------------ -/
/- Claim C9                                                            -/
/- ------------------------------------------------------------------ -/

/-- C9: repairing the blob with unquoted and single-quoted pieces and
    parsing the result yields the object mapping pytest to 8.3.3 and
    pluggy to 1.5.0, both as strings. -/
theorem clean_json_repair_parses :
    json_loads (clean_json_string c9Input) =
      some (.jobj [(jkPytest, .jstr v833), (jkPluggy, .jstr v150)]) := by
  rfl

/- ------------------------------------------------------------------ -/
/- Claim C1                                                            -/
/- ------------------------------------------------------------------ -/

/-- C1 counterexample: on a document with no data container and an
    environment table carrying a Python version, the extracted record is
    not the one the HTML-table scraper path would produce, because the
    fallback never runs when the container is absent. -/
theorem absent_container_skips_fallback :
    extractEnv c1Doc ≠
      applyHtmlEnv (extract_environment_from_html c1Doc.envTable) environmentDefault := by
  intro h
  have h2 := congrArg Environment.python h
  have e1 : (extractEnv c1Doc).python = JVal.jstr [] := rfl
  have e2 : (applyHtmlEnv (extract_environment_from_html c1Doc.envTable)
      environmentDefault).python = JVal.jstr v3119 := rfl
  rw [e1, e2] at h2
  injection h2 with h3
  exact absurd h3 (by decide)

/-- C1 amended: with the embedded container or its blob attribute absent,
    extraction returns the default all-empty record; the HTML-table
    fallback produces the record only when the blob is present and its
    cleaned text fails to parse. -/
theorem fallback_only_on_parse_failure (doc : Doc) :
    (blobOf doc = none → extractEnv doc = environmentDefault) ∧
    (∀ b, blobOf doc = some b → json_loads (clean_json_string b) = none →
      extractEnv doc =
        applyHtmlEnv (extract_environment_from_html doc.envTable) environmentDefault) := by
  constructor
  · intro h
    unfold extractEnv
    rw [h]
  · intro b hb hp
    unfold extractEnv
    simp only [hb, hp]

/-- C1 witness: the amended theorem applied to the container-free document. -/
theorem fallback_only_on_parse_failure_witness :
    extractEnv c3PlainDoc = environmentDefault :=
  (fallback_only_on_parse_failure c3PlainDoc).1 rfl

/- ------------------------------------------------------------------ -/
/- Claim C3                                                            -/
/- ------------------------------------------------------------------ -/

theorem envStringsOk_pluginsStepJson (efs : List (Str × JVal)) (env : Environment) :
    envStringsOk (pluginsStepJson efs env) = envStringsOk env := by
  unfold pluginsStepJson
  cases h : lookupLast efs jkPlugins with
  | none => rfl
  | some v => cases v <;> rfl

theorem envStringsOk_update_packages (e : Environment) (P : EnvPackages) :
    envStringsOk { e with packages := P } = envStringsOk e := rfl

/-- C3 counterexample: a blob whose environment carries null for Python
    puts a non-string value in the extracted record. -/
theorem env_scalar_not_string :
    envStringsOk (extractEnv c3Doc) = false := by
  rfl

/-- C3 amended: every package and plugin field of the extracted record is
    a string by construction, and the four scalar fields are strings
    provided the parsed blob, when it parses, maps each of Python,
    Platform, PLATFORM and Base URL (where present) to a JSON string;
    otherwise a scalar holds the raw JSON value the blob supplied. -/
theorem env_strings_when_blob_scalars_ok (doc : Doc)
    (h : ∀ b j, blobOf doc = some b → json_loads (clean_json_string b) = some j →
      blobScalarsOk j = true) :
    envStringsOk (extractEnv doc) = true := by
  cases hb : blobOf doc with
  | none =>
    have he : extractEnv doc = environmentDefault := by
      unfold extractEnv; rw [hb]
    rw [he]; rfl
  | some b =>
    cases hp : json_loads (clean_json_string b) with
    | none =>
      have he : extractEnv doc =
          applyHtmlEnv (extract_environment_from_html doc.envTable) environmentDefault := by
        unfold extractEnv; simp only [hb, hp]
      rw [he]; rfl
    | some j =>
      have hok := h b j hb hp
      have he : extractEnv doc = applyJsonEnv j environmentDefault := by
        unfold extractEnv; simp only [hb, hp]
      rw [he]
      cases j with
      | jnull => rfl
      | jbool x => cases x <;> rfl
      | jnum n => rfl
      | jstr s => rfl
      | jarr xs => rfl
      | jobj fs =>
        cases henv : lookupLast fs jkEnvironment with
        | none => simp only [applyJsonEnv, henv]; rfl
        | some je =>
          cases je with
          | jnull => simp only [applyJsonEnv, henv]; rfl
          | jbool x => simp only [applyJsonEnv, henv]; rfl
          | jnum n => simp only [applyJsonEnv, henv]; rfl
          | jstr s => simp only [applyJsonEnv, henv]; rfl
          | jarr xs => simp only [applyJsonEnv, henv]; rfl
          | jobj efs =>
            simp only [blobScalarsOk, henv, Bool.and_eq_true] at hok
            obtain ⟨⟨⟨h1, h2⟩, h3⟩, h4⟩ := hok
            have hscal : ∀ (o : Option JVal), scalarOk o = true →
                isJStr (o.getD (JVal.jstr [])) = true := by
              intro o ho
              cases o with
              | none => rfl
              | some v => exact ho
            simp only [applyJsonEnv, henv]
            cases hpk : lookupLast efs keyPackages with
            | none =>
              simp only [hpk]
              rw [envStringsOk_pluginsStepJson]
              simp only [envStringsOk, getD, Bool.and_eq_true]
              exact ⟨⟨⟨hscal _ h1, hscal _ h2⟩, hscal _ h3⟩, hscal _ h4⟩
            | some pv =>
              cases pv with
              | jobj pfs =>
                simp only [hpk]
                rw [envStringsOk_pluginsStepJson]
                simp only [envStringsOk, getD, Bool.and_eq_true]
                exact ⟨⟨⟨hscal _ h1, hscal _ h2⟩, hscal _ h3⟩, hscal _ h4⟩
              | jnull =>
                simp only [hpk, envStringsOk, getD, Bool.and_eq_true]
                exact ⟨⟨⟨hscal _ h1, hscal _ h2⟩, hscal _ h3⟩, hscal _ h4⟩
              | jbool x =>
                simp only [hpk, envStringsOk, getD, Bool.and_eq_true]
                exact ⟨⟨⟨hscal _ h1, hscal _ h2⟩, hscal _ h3⟩, hscal _ h4⟩
              | jnum n =>
                simp only [hpk, envStringsOk, getD, Bool.and_eq_true]
                exact ⟨⟨⟨hscal _ h1, hscal _ h2⟩, hscal _ h3⟩, hscal _ h4⟩
              | jstr s =>
                simp only [hpk, envStringsOk, getD, Bool.and_eq_true]
                exact ⟨⟨⟨hscal _ h1, hscal _ h2⟩, hscal _ h3⟩, hscal _ h4⟩
              | jarr xs =>
                simp only [hpk, envStringsOk, getD, Bool.and_eq_true]
                exact ⟨⟨⟨hscal _ h1, hscal _ h2⟩, hscal _ h3⟩, hscal _ h4⟩

/-- C3 witness: the amended theorem applied to a document whose blob
    parses and maps Python to a JSON string, so the string-scalars
    hypothesis is discharged non-vacuously on the parsed value. -/
theorem env_strings_when_blob_scalars_ok_witness :
    envStringsOk (extractEnv c3GoodDoc) = true :=
  env_strings_when_blob_scalars_ok c3GoodDoc (by
    intro b j hb hp
    have hb2 : some c3GoodBlob = some b := hb
    have hbe : c3GoodBlob = b := Option.some.inj hb2
    rw [← hbe] at hp
    have hp2 : some (JVal.jobj [(jkEnvironment, JVal.jobj [(keyPython, JVal.jstr v3119)])]) =
        some j := by rw [← hp]; rfl
    have hj : JVal.jobj [(jkEnvironment, JVal.jobj [(keyPython, JVal.jstr v3119)])] = j :=
      Option.some.inj hp2
    rw [← hj]
    rfl)

/- ------------------------------------------------------------------ -/
/- Claim C6                                                            -/
/- ------------------------------------------------------------------ -/

/-- C6: a failed parse aborts the run with no document built, and a
    successful parse hands exactly the fully built batch to the uploader. -/
theorem execute_all_or_nothing (ids : Nat → Str) (cfg : MetadataConfig) (e : Str)
    (td : TestData) :
    (∀ docs, execute ids cfg (Except.error e) ≠ Except.ok docs) ∧
    execute ids cfg (Except.ok td) = Except.ok (index_test_results ids cfg td) := by
  constructor
  · intro docs h
    simp [execute] at h
  · rfl

/- ------------------------------------------------------------------ -/
/- Row extraction lemmas                                               -/
/- ------------------------------------------------------------------ -/

theorem rowComplete_of_rowEntry {tb : TBodyModel} {e : Str × TestRec}
    (h : rowEntry tb = some e) : rowComplete tb = true := by
  rcases tb with ⟨row, logd, ex⟩
  cases row with
  | none => simp [rowEntry] at h
  | some r =>
    rcases r with ⟨rc, tic, dc⟩
    cases rc <;> cases tic <;> cases dc <;> simp_all [rowEntry, rowComplete]

theorem rowEntry_none_of_incomplete {tb : TBodyModel}
    (h : rowComplete tb = false) : rowEntry tb = none := by
  rcases tb with ⟨row, logd, ex⟩
  cases row with
  | none => rfl
  | some r =>
    rcases r with ⟨rc, tic, dc⟩
    cases rc <;> cases tic <;> cases dc <;> simp_all [rowEntry, rowComplete]

theorem rowEntry_log {tb : TBodyModel} {k : Str} {rec : TestRec}
    (h : rowEntry tb = some (k, rec)) :
    (tb.logDiv = none → rec.log = logSentinel) ∧
    (∀ t, tb.logDiv = some t → rec.log = pyStrip t) := by
  rcases tb with ⟨row, logd, ex⟩
  cases row with
  | none => simp [rowEntry] at h
  | some r =>
    rcases r with ⟨rc, tic, dc⟩
    cases rc <;> cases tic <;> cases dc <;> cases logd <;> simp_all [rowEntry] <;>
      (obtain ⟨h1, h2⟩ := h; subst h2; rfl)

theorem mem_dictUpsert {d : List (Str × List TestRec)} {k : Str} {v : List TestRec}
    {p : Str × List TestRec} (h : p ∈ dictUpsert d k v) : p ∈ d ∨ p = (k, v) := by
  unfold dictUpsert at h
  by_cases hany : d.any (fun q => q.1 == k)
  · rw [if_pos hany] at h
    obtain ⟨q, hq, hfq⟩ := List.mem_map.mp h
    by_cases hqk : (q.1 == k) = true
    · right
      rw [if_pos hqk] at hfq
      have hqe : q.1 = k := by simpa using hqk
      rw [← hfq, hqe]
    · left
      rw [if_neg hqk] at hfq
      rwa [← hfq]
  · rw [if_neg hany] at h
    rcases List.mem_append.mp h with h1 | h2
    · exact Or.inl h1
    · right; simpa using h2

theorem mem_foldl_insertTest :
    ∀ (tbs : List TBodyModel) (d : List (Str × List TestRec)) (p : Str × List TestRec),
      p ∈ tbs.foldl insertTest d →
      p ∈ d ∨ ∃ tb ∈ tbs, ∃ v, rowEntry tb = some (p.1, v) ∧ p.2 = [v] := by
  intro tbs
  induction tbs with
  | nil => intro d p h; exact Or.inl h
  | cons tb tbs ih =>
    intro d p h
    rw [List.foldl_cons] at h
    rcases ih _ p h with h1 | ⟨tb2, htb2, v, hv, hp2⟩
    · unfold insertTest at h1
      cases he : rowEntry tb with
      | none => rw [he] at h1; exact Or.inl h1
      | some kv =>
        rw [he] at h1
        rcases kv with ⟨k, v⟩
        rcases mem_dictUpsert h1 with h2 | h2
        · exact Or.inl h2
        · subst h2
          exact Or.inr ⟨tb, List.mem_cons_self _ _, v, by simpa using he, rfl⟩
    · exact Or.inr ⟨tb2, List.mem_cons_of_mem _ htb2, v, hv, hp2⟩

/- ------------------------------------------------------------------ -/
/- Claim C5                                                            -/
/- ------------------------------------------------------------------ -/

/-- C5: a tbody missing its collapsible row or any of the result,
    identifier or duration cells contributes nothing, and every emitted
    record comes from a row carrying all three cells. -/
theorem result_rows_skip_incomplete (tbs : List TBodyModel) :
    (∀ tb ∈ tbs, rowComplete tb = false → rowEntry tb = none) ∧
    (∀ p ∈ extractTests tbs, ∀ r ∈ p.2,
      ∃ tb ∈ tbs, rowComplete tb = true ∧ rowEntry tb = some (p.1, r)) := by
  constructor
  · intro tb _ h
    exact rowEntry_none_of_incomplete h
  · intro p hp r hr
    rcases mem_foldl_insertTest tbs [] p hp with h1 | ⟨tb, htb, v, hv, hp2⟩
    · simp at h1
    · rw [hp2] at hr
      have hrv : r = v := by simpa using hr
      subst hrv
      exact ⟨tb, htb, rowComplete_of_rowEntry hv, hv⟩

/-- C5 witness: the skip half applied to the row with no duration cell. -/
theorem result_rows_skip_incomplete_witness :
    rowEntry tbIncomplete = none :=
  (result_rows_skip_incomplete [tbIncomplete]).1 tbIncomplete (by decide) (by decide)

/- ------------------------------------------------------------------ -/
/- Claim C8                                                            -/
/- ------------------------------------------------------------------ -/

/-- C8: every emitted record takes the exact sentinel text as its log
    when the log element of its row is absent, and the stripped element
    text when present. -/
theorem log_sentinel_exact (tbs : List TBodyModel) (p : Str × List TestRec)
    (hp : p ∈ extractTests tbs) (r : TestRec) (hr : r ∈ p.2) :
    ∃ tb ∈ tbs, rowEntry tb = some (p.1, r) ∧
      (tb.logDiv = none → r.log = logSentinel) ∧
      (∀ t, tb.logDiv = some t → r.log = pyStrip t) := by
  rcases mem_foldl_insertTest tbs [] p hp with h1 | ⟨tb, htb, v, hv, hp2⟩
  · simp at h1
  · rw [hp2] at hr
    have hrv : r = v := by simpa using hr
    subst hrv
    exact ⟨tb, htb, hv, (rowEntry_log hv).1, (rowEntry_log hv).2⟩

/-- C8 witness: the theorem applied to the first emitted entry of a
    two-row table whose first row has no log element. -/
theorem log_sentinel_exact_witness :
    ∃ tb ∈ c8Tbs, rowEntry tb = some (c8Entry.1, c8Rec) ∧
      (tb.logDiv = none → c8Rec.log = logSentinel) ∧
      (∀ t, tb.logDiv = some t → c8Rec.log = pyStrip t) :=
  log_sentinel_exact c8Tbs c8Entry (by decide) c8Rec (by decide)

/- ------------------------------------------------------------------ -/
/- Dictionary lookup lemmas and claim C10                              -/
/- ------------------------------------------------------------------ -/

theorem getLast?_cons_ne_none {α : Type} : ∀ (l : List α) (a : α),
    ∃ x, (a :: l).getLast? = some x := by
  intro l
  induction l with
  | nil => intro a; exact ⟨a, rfl⟩
  | cons b m ih =>
    intro a
    rw [List.getLast?_cons_cons]
    exact ih b

theorem getLast?_cons_reduce {α : Type} (a : α) (l : List α) :
    (a :: l).getLast? =
      match l.getLast? with
      | some x => some x
      | none => some a := by
  cases l with
  | nil => rfl
  | cons b m =>
    rw [List.getLast?_cons_cons]
    obtain ⟨x, hx⟩ := getLast?_cons_ne_none m b
    rw [hx]

theorem lookupTests_dictUpsert (d : List (Str × List TestRec)) (k : Str)
    (v : List TestRec) (k' : Str) :
    lookupTests (dictUpsert d k v) k' = if k' = k then some v else lookupTests d k' := by
  unfold dictUpsert lookupTests
  by_cases hany : d.any (fun q => q.1 == k)
  · rw [if_pos hany, List.find?_map]
    have hcomp : ((fun p : Str × List TestRec => p.1 == k') ∘
        (fun p => if p.1 == k then (p.1, v) else p)) = fun p => p.1 == k' := by
      funext q
      by_cases hq : (q.1 == k) = true
      · simp [Function.comp, hq]
      · simp [Function.comp, hq]
    rw [hcomp]
    by_cases hk : k' = k
    · subst hk
      obtain ⟨q, hq, hqk⟩ := List.any_eq_true.mp hany
      cases hfind : d.find? (fun p => p.1 == k') with
      | none =>
        rw [List.find?_eq_none] at hfind
        exact absurd hqk (hfind q hq)
      | some q0 =>
        have hq0 := List.find?_some hfind
        have hq0e : q0.1 = k' := by simpa using hq0
        simp [hq0e]
    · cases hfind : d.find? (fun p => p.1 == k') with
      | none => simp [hk]
      | some q0 =>
        have hq0 := List.find?_some hfind
        have hne2 : ¬ q0.1 = k := by
          have h1 : q0.1 = k' := by simpa using hq0
          rw [h1]
          exact hk
        simp [hne2, hk]
  · rw [if_neg hany, List.find?_append]
    by_cases hk : k' = k
    · subst hk
      have hnone : d.find? (fun p => p.1 == k') = none := by
        rw [List.find?_eq_none]
        intro x hx
        have hall := List.any_eq_false.mp (Bool.eq_false_iff.mpr hany)
        exact hall x hx
      rw [hnone]
      simp [List.find?]
    · cases hfind : d.find? (fun p => p.1 == k') with
      | none =>
        have hne : (k == k') = false := by
          simp [Ne.symm hk]
        simp [List.find?, hne, hk]
      | some q0 =>
        simp [hk]

theorem lookup_foldl_insertTest :
    ∀ (tbs : List TBodyModel) (d : List (Str × List TestRec)) (k : Str),
      lookupTests (tbs.foldl insertTest d) k =
        match ((tbs.filterMap rowEntry).filter (fun p => p.1 == k)).getLast? with
        | some p => some [p.2]
        | none => lookupTests d k := by
  intro tbs
  induction tbs with
  | nil => intro d k; rfl
  | cons tb tbs ih =>
    intro d k
    rw [List.foldl_cons, ih]
    cases he : rowEntry tb with
    | none =>
      rw [List.filterMap_cons_none he]
      have hid : insertTest d tb = d := by unfold insertTest; rw [he]
      rw [hid]
    | some kv =>
      rcases kv with ⟨k0, v⟩
      rw [List.filterMap_cons_some he]
      have hins : insertTest d tb = dictUpsert d k0 [v] := by unfold insertTest; rw [he]
      rw [hins, lookupTests_dictUpsert]
      by_cases hk : ((k0, v).1 == k) = true
      · have hfc : List.filter (fun p => p.1 == k) ((k0, v) :: List.filterMap rowEntry tbs) =
            (k0, v) :: List.filter (fun p => p.1 == k) (List.filterMap rowEntry tbs) := by
          simp [List.filter_cons, hk]
        rw [hfc, getLast?_cons_reduce]
        have hk2 : k = k0 := by
          have hke : k0 = k := by simpa using hk
          exact hke.symm
        cases hrest : ((tbs.filterMap rowEntry).filter (fun p => p.1 == k)).getLast? with
        | some p => simp [hrest]
        | none => simp [hrest, hk2]
      · have hfc : List.filter (fun p => p.1 == k) ((k0, v) :: List.filterMap rowEntry tbs) =
            List.filter (fun p => p.1 == k) (List.filterMap rowEntry tbs) := by
          simp only [List.filter_cons]
          rw [if_neg hk]
        rw [hfc]
        have hk2 : ¬ k = k0 := by
          intro hkk
          subst hkk
          simp at hk
        cases hrest : ((tbs.filterMap rowEntry).filter (fun p => p.1 == k)).getLast? with
        | some p => simp [hrest]
        | none => simp [hrest, hk2]

/-- C10: looking any identifier up in the extracted tests dictionary gives
    exactly the record of the last qualifying row carrying it, so earlier
    duplicate rows are dropped. -/
theorem duplicate_rows_last_wins (tbs : List TBodyModel) (k : Str) :
    lookupTests (extractTests tbs) k = (lastQualRecord tbs k).map (fun r => [r]) := by
  unfold extractTests lastQualRecord
  rw [lookup_foldl_insertTest]
  cases h : ((tbs.filterMap rowEntry).filter (fun p => p.1 == k)).getLast? with
  | some p => simp [h]
  | none => simp [h, lookupTests]

/- ------------------------------------------------------------------ -/
/- Claim C4                                                            -/
/- ------------------------------------------------------------------ -/

theorem numberWith_length (cfg : MetadataConfig) (td : TestData) (ids : Nat → Str) :
    ∀ (l : List TestRec) (i : Nat), (numberWith cfg td ids i l).length = l.length := by
  intro l
  induction l with
  | nil => intro i; rfl
  | cons t ts ih => intro i; simp [numberWith, ih]

theorem numberWith_getElem? (cfg : MetadataConfig) (td : TestData) (ids : Nat → Str) :
    ∀ (l : List TestRec) (i j : Nat),
      (numberWith cfg td ids i l)[j]? =
        (l[j]?).map (fun t => mkIndexDoc cfg td (ids (i + j)) t) := by
  intro l
  induction l with
  | nil => intro i j; simp [numberWith]
  | cons t ts ih =>
    intro i j
    cases j with
    | zero => simp [numberWith]
    | succ j =>
      rw [show i + (j + 1) = i + 1 + j by omega]
      simp only [numberWith, List.getElem?_cons_succ]
      exact ih (i + 1) j

/-- C4: with an injective identifier supply, the batch has one document
    per record of the tests dictionary, the documents carry the records
    in order, and every two distinct positions carry distinct ids. -/
theorem one_doc_per_record (ids : Nat → Str) (cfg : MetadataConfig) (td : TestData)
    (hinj : ∀ i j, ids i = ids j → i = j) :
    (index_test_results ids cfg td).length = (allTestRecs td).length ∧
    (∀ (i : Nat), ((index_test_results ids cfg td)[i]?).map
        (fun (d : IndexDoc) => (d.testId, d.result, d.duration, d.log)) =
      ((allTestRecs td)[i]?).map (fun (t : TestRec) => (t.testId, t.result, t.duration, t.log))) ∧
    (∀ (i j : Nat) (a b : IndexDoc), i ≠ j → (index_test_results ids cfg td)[i]? = some a →
      (index_test_results ids cfg td)[j]? = some b → a.id ≠ b.id) := by
  refine ⟨numberWith_length cfg td ids _ 0, ?_, ?_⟩
  · intro i
    unfold index_test_results
    rw [numberWith_getElem?]
    cases h : (allTestRecs td)[i]? with
    | none => rfl
    | some t => simp [mkIndexDoc]
  · intro i j a b hij ha hb
    unfold index_test_results at ha hb
    rw [numberWith_getElem?] at ha hb
    cases hti : (allTestRecs td)[i]? with
    | none => rw [hti] at ha; simp at ha
    | some t1 =>
      rw [hti] at ha
      simp at ha
      cases htj : (allTestRecs td)[j]? with
      | none => rw [htj] at hb; simp at hb
      | some t2 =>
        rw [htj] at hb
        simp at hb
        intro hid
        apply hij
        rw [← ha, ← hb] at hid
        exact hinj i j hid

/-- C4 witness: the length half of the theorem at the two-row document. -/
theorem one_doc_per_record_witness :
    (index_test_results idsRep cfgSample tdC5).length = (allTestRecs tdC5).length :=
  (one_doc_per_record idsRep cfgSample tdC5 (fun i j h => by
    have hlen := congrArg List.length h
    simpa [idsRep] using hlen)).1

/- ------------------------------------------------------------------ -/
/- Claim C7                                                            -/
/- ------------------------------------------------------------------ -/

theorem numberWith_env (cfg : MetadataConfig) (td : TestData) (ids : Nat → Str) :
    ∀ (l : List TestRec) (i : Nat) (d : IndexDoc), d ∈ numberWith cfg td ids i l →
      d.environment = normalizeEnv td.environment := by
  intro l
  induction l with
  | nil => intro i d h; simp [numberWith] at h
  | cons t ts ih =>
    intro i d h
    simp only [numberWith, List.mem_cons] at h
    rcases h with h1 | h2
    · subst h1; rfl
    · exact ih (i + 1) d h2

/-- C7 counterexample: a produced document of the c7Doc report embeds an
    environment whose pytest entry differs from the report record, since
    the builder re-cleans the already-cleaned value. -/
theorem index_env_not_deep_copy :
    c7BatchHead ∈ index_test_results idsRep cfgSample tdC7 ∧
    c7BatchHead.environment.packages.pytest ≠ tdC7.environment.packages.pytest := by
  decide

/-- C7 amended: every produced document embeds the same freshly built
    environment, obtained from the report record by str on scalars and
    re-cleaning of package and plugin entries; the embedded copies are
    equal across documents (and freshly constructed per document), but
    not equal in value to the report record in general. -/
theorem index_env_normalized (ids : Nat → Str) (cfg : MetadataConfig) (td : TestData) :
    ∀ d ∈ index_test_results ids cfg td, d.environment = normalizeEnv td.environment := by
  intro d h
  exact numberWith_env cfg td ids (allTestRecs td) 0 d h

/-- C7 witness: the amended theorem at the first document of the c5Doc
    batch. -/
theorem index_env_normalized_witness :
    c7HeadDoc.environment = normalizeEnv tdC5.environment :=
  index_env_normalized idsRep cfgSample tdC5 c7HeadDoc (by decide)

/-- C6 witness: the success half of the all-or-nothing theorem at a
    concrete parsed report. -/
theorem execute_all_or_nothing_witness :
    execute idsRep cfgSample (Except.ok tdC5) =
      Except.ok (index_test_results idsRep cfgSample tdC5) :=
  (execute_all_or_nothing idsRep cfgSample [] tdC5).2
